import Mathlib

/-!
Shallow embedding of the LearningApp entity store and synchronization layer
(source: src/LearningApp/src/components/{AuthContext,AdminPortal,UserPortal,
PasswordGenerator}.tsx).  Pure TypeScript functions become Lean functions;
React state updates become explicit state passing.  `Date.now()`-derived
identifiers and timestamps are threaded in as explicit parameters, and the
browser `Math.random()` source is threaded in as explicit choice parameters.
-/

namespace LearningApp

/-- User record, mirroring the `User` interface of AuthContext.tsx.
Optional TypeScript fields (`password?`, `passwordGeneratedAt?`, `createdBy?`,
`createdAt?`) become `Option` fields; `Date` values are modelled as `Nat`
millisecond timestamps. -/
structure User where
  id : String
  email : String
  name : String
  phone : String
  employeeId : String
  location : String
  isAdmin : Bool
  groups : List String
  password : Option String
  passwordGeneratedAt : Option Nat
  createdBy : Option String
  createdAt : Option Nat
  deriving Repr, DecidableEq

/-- Seed user list from AuthContext.tsx `initialUsers` (the single system
admin).  The constructor timestamps `new Date()` are modelled as time 0. -/
def initialUsers : List User :=
  [{ id := "1"
     email := "admin@company.com"
     name := "System Admin"
     phone := "+1234567890"
     employeeId := "ADMIN001"
     location := "Head Office"
     isAdmin := true
     groups := []
     password := some "admin123"
     passwordGeneratedAt := some 0
     createdBy := some "system"
     createdAt := some 0 }]

/-- Lowercasing `String.toLowerCase()` modelled character-wise over the
string's character list (kernel-reducible, unlike `String.map`). -/
def strLower (s : String) : String := ⟨s.data.map Char.toLower⟩

/-- Trimming `String.trim()` modelled over the character list: drop leading
and trailing whitespace. -/
def strTrim (s : String) : String :=
  ⟨((s.data.dropWhile Char.isWhitespace).reverse.dropWhile
      Char.isWhitespace).reverse⟩

/-- Duplicate-identity test used by `addUser`/`addUsers` in AuthContext.tsx:
`u.email.toLowerCase() === newUser.email.toLowerCase() || u.employeeId ===
newUser.employeeId` over the previous user list. -/
def identityConflict (prevUsers : List User) (newUser : User) : Bool :=
  prevUsers.any fun u =>
    strLower u.email == strLower newUser.email || u.employeeId == newUser.employeeId

/-- AuthContext.tsx `addUser`: rejects (returns the list unchanged) when the
new user's lowercased email or employeeId already occurs, otherwise appends
the user stamped with `createdAt := now`. -/
def addUser (now : Nat) (prevUsers : List User) (newUser : User) : List User :=
  if identityConflict prevUsers newUser then prevUsers
  else prevUsers ++ [{ newUser with createdAt := some now }]

/-- AuthContext.tsx `addUsers`: keeps the drafts that do not conflict with the
PREVIOUS list (drafts are not compared with each other), stamps `createdAt`,
and appends them all. -/
def addUsers (now : Nat) (prevUsers : List User) (newUsers : List User) :
    List User :=
  let validUsers := newUsers.filter fun newUser => !identityConflict prevUsers newUser
  prevUsers ++ validUsers.map fun u => { u with createdAt := some now }

/-- Partial user update (TypeScript `Partial<User>` as passed to
`updateUser`); only the fields actually used by the app are representable. -/
structure UserUpdate where
  email : Option String := none
  name : Option String := none
  employeeId : Option String := none
  groups : Option (List String) := none
  password : Option (Option String) := none
  deriving Repr, DecidableEq

/-- Spread semantics of `{ ...u, ...updates }` for a `UserUpdate`. -/
def applyUpdate (u : User) (upd : UserUpdate) : User :=
  { u with
    email := upd.email.getD u.email
    name := upd.name.getD u.name
    employeeId := upd.employeeId.getD u.employeeId
    groups := upd.groups.getD u.groups
    password := upd.password.getD u.password }

/-- AuthContext.tsx `updateUser`: maps the update over every user whose `id`
matches; performs no uniqueness check. -/
def updateUser (users : List User) (userId : String) (upd : UserUpdate) :
    List User :=
  users.map fun u => if u.id == userId then applyUpdate u upd else u

/-- AuthContext.tsx `deleteUser` user-list part: filters out the id. -/
def deleteUserList (users : List User) (userId : String) : List User :=
  users.filter fun u => u.id != userId

/-- AuthContext.tsx `getUserByEmail` (case-insensitive first match). -/
def getUserByEmail (users : List User) (email : String) : Option User :=
  users.find? fun u => strLower u.email == strLower email

/-- AuthContext.tsx `getUserByEmployeeId` (case-sensitive first match). -/
def getUserByEmployeeId (users : List User) (employeeId : String) :
    Option User :=
  users.find? fun u => u.employeeId == employeeId

/-- Pairwise uniqueness of user identities: no two users share a lowercased
email or an employeeId (the invariant claimed for the user store). -/
def uniqueIdentities (users : List User) : Prop :=
  users.Pairwise fun u v =>
    strLower u.email ≠ strLower v.email ∧ u.employeeId ≠ v.employeeId

instance (users : List User) : Decidable (uniqueIdentities users) := by
  unfold uniqueIdentities
  exact List.instDecidablePairwise users

/-! ### Persistent storage and session (AuthContext.tsx) -/

/-- Observable state of the `systemUsers` localStorage partition: absent
(`localStorage.getItem` returns null), unparsable (JSON.parse throws), or a
parsed user list. -/
inductive UsersPartition where
  | missing
  | corrupt
  | data (users : List User)
  deriving Repr, DecidableEq

/-- AuthContext.tsx `loadUsersFromStorage`: returns the parsed list when
present; returns `initialUsers` when the key is absent; the catch branch on a
parse error also returns `initialUsers`.  The per-user date re-parsing map is
the identity here since dates are already modelled as numbers. -/
def loadUsersFromStorage : UsersPartition → List User
  | .missing => initialUsers
  | .corrupt => initialUsers
  | .data users => users

/-- Combined AuthProvider state: the storage partitions plus the in-memory
`user` session and `allUsers` list. -/
structure AuthState where
  usersPartition : UsersPartition
  sessionPartition : Option User
  user : Option User
  allUsers : List User
  deriving Repr, DecidableEq

/-- AuthContext.tsx `refreshUserData`: replaces the in-memory user list with
a fresh read of storage. -/
def refreshUserData (s : AuthState) : AuthState :=
  { s with allUsers := loadUsersFromStorage s.usersPartition }

/-- AuthContext.tsx `login`: re-reads the freshest persisted user set, finds
a case-insensitive email match, compares the password by exact equality; on
success stores the found user minus the password field as the in-memory
session and persists it to the `currentUser` partition; on failure returns
false and changes nothing. -/
def login (s : AuthState) (email password : String) : Bool × AuthState :=
  let currentUsers := loadUsersFromStorage s.usersPartition
  match currentUsers.find? (fun u => strLower u.email == strLower email) with
  | some foundUser =>
    if foundUser.password == some password then
      let userForStorage := { foundUser with password := none }
      (true, { s with user := some userForStorage,
                      sessionPartition := some userForStorage })
    else (false, s)
  | none => (false, s)

/-- AuthContext.tsx `logout`: clears the in-memory session and the
`currentUser` partition. -/
def logout (s : AuthState) : AuthState :=
  { s with user := none, sessionPartition := none }

/-! ### MCQ responses (UserPortal.tsx) -/

/-- MCQ payload embedded in an mcq-typed message (UserPortal.tsx
`MCQQuestion`). -/
structure MCQQuestion where
  question : String
  options : List String
  correctAnswer : String
  deriving Repr, DecidableEq

/-- MCQ response record (UserPortal.tsx `MCQResponse`). -/
structure MCQResponse where
  id : String
  messageId : String
  userId : String
  userName : String
  userEmail : String
  groupId : String
  selectedAnswer : String
  timestamp : Nat
  isCorrect : Bool
  deriving Repr, DecidableEq

/-- UserPortal.tsx `handleMCQAnswer`: without a logged-in user it does
nothing; if a response by the same user to the same message already exists it
returns unchanged (early return); otherwise it appends a new response whose
`isCorrect` compares the option with the payload's `correctAnswer`. -/
def handleMCQAnswer (user : Option User) (selectedGroup : Option String)
    (responses : List MCQResponse) (messageId selectedOption : String)
    (mcqData : MCQQuestion) (newId : String) (now : Nat) : List MCQResponse :=
  match user with
  | none => responses
  | some u =>
    if (responses.find? fun r =>
        r.messageId == messageId && r.userId == u.id).isSome then
      responses
    else
      let isCorrect := selectedOption == mcqData.correctAnswer
      responses ++ [{ id := newId, messageId := messageId, userId := u.id,
                      userName := u.name, userEmail := u.email,
                      groupId := selectedGroup.getD "",
                      selectedAnswer := selectedOption, timestamp := now,
                      isCorrect := isCorrect }]

/-- Number of stored responses for a (messageId, userId) pair. -/
def countPairResponses (responses : List MCQResponse)
    (messageId userId : String) : Nat :=
  (responses.filter fun r =>
    r.messageId == messageId && r.userId == userId).length

/-- First stored response for a (messageId, userId) pair (UserPortal.tsx
`getUserResponse`). -/
def getUserResponse (responses : List MCQResponse)
    (messageId userId : String) : Option MCQResponse :=
  responses.find? fun r => r.messageId == messageId && r.userId == userId

/-! ### Password generation (PasswordGenerator.tsx) -/

/-- Lowercase alphabet of `generateSecurePassword`. -/
def lowercaseChars : List Char := "abcdefghijklmnopqrstuvwxyz".data

/-- Uppercase alphabet of `generateSecurePassword`. -/
def uppercaseChars : List Char := "ABCDEFGHIJKLMNOPQRSTUVWXYZ".data

/-- Digit alphabet of `generateSecurePassword`. -/
def numberChars : List Char := "0123456789".data

/-- Symbol alphabet of `generateSecurePassword`. -/
def symbolChars : List Char := "!@#$%^&*()_+-=[]\x7b\x7d|;:,.<>?".data

/-- Union alphabet (`allChars`). -/
def allChars : List Char :=
  lowercaseChars ++ uppercaseChars ++ numberChars ++ symbolChars

/-- Character sequence assembled by `generateSecurePassword` BEFORE the final
shuffle: one choice from each class (indices `i1..i4` stand for the
`Math.floor(Math.random() * alphabet.length)` draws) followed by
`length - 4` draws from the union alphabet (indices `fill`).  The trailing
`.split('').sort(() => Math.random() - 0.5).join('')` is an arbitrary
permutation of this list and is quantified in the theorems. -/
def securePasswordChars (i1 i2 i3 i4 : Nat) (fill : List Nat) : List Char :=
  [lowercaseChars.getD i1 ' ', uppercaseChars.getD i2 ' ',
   numberChars.getD i3 ' ', symbolChars.getD i4 ' ']
  ++ fill.map fun j => allChars.getD j ' '

/-! ### Groups and admin-side operations (AdminPortal.tsx) -/

/-- Group record (AdminPortal.tsx `Group`). -/
structure Group where
  id : String
  name : String
  description : String
  members : List String
  createdBy : String
  deriving Repr, DecidableEq

/-- Combined AdminPortal state: the shared user list (AuthContext), the group
list, and the logged-in session user (`user` from `useAuth`). -/
structure AppState where
  users : List User
  groups : List Group
  sessionUser : Option User
  deriving Repr, DecidableEq

/-- Draft fields of the single-user creation form (AdminPortal.tsx
`newUser`). -/
structure NewUserDraft where
  email : String
  name : String
  phone : String
  employeeId : String
  location : String
  isAdmin : Bool
  deriving Repr, DecidableEq

/-- Outcome surfaced by `handleCreateUser`: either the user was staged and
added, or the duplicate-identity alert fired and nothing changed. -/
inductive CreateOutcome where
  | created (u : User)
  | duplicateIdentity
  deriving Repr, DecidableEq

/-- AdminPortal.tsx `handleCreateUser`: alerts and returns when
`getUserByEmail(newUser.email) || getUserByEmployeeId(newUser.employeeId)`
finds an existing user; otherwise builds the user record (fresh id from
`Date.now()`, empty groups, generated password, `createdBy` from the session,
`user?.id || 'unknown'`) and calls `addUser`. -/
def handleCreateUser (s : AppState) (draft : NewUserDraft)
    (newId password : String) (now : Nat) : CreateOutcome × AppState :=
  if (getUserByEmail s.users draft.email).isSome
      || (getUserByEmployeeId s.users draft.employeeId).isSome then
    (.duplicateIdentity, s)
  else
    let newUserData : User :=
      { id := newId, email := draft.email, name := draft.name,
        phone := draft.phone, employeeId := draft.employeeId,
        location := draft.location, isAdmin := draft.isAdmin, groups := [],
        password := some password, passwordGeneratedAt := some now,
        createdBy := some ((s.sessionUser.map User.id).getD "unknown"),
        createdAt := none }
    (.created newUserData, { s with users := addUser now s.users newUserData })

/-- AdminPortal.tsx `handleCreateGroup`: requires a non-blank name, then
appends a group with a fresh `Date.now()` id and no members. -/
def handleCreateGroup (s : AppState) (name description : String)
    (newId : String) : AppState :=
  if strTrim name == "" then s
  else
    { s with groups := s.groups ++
        [{ id := newId, name := name, description := description,
           members := [],
           createdBy := (s.sessionUser.map User.id).getD "" }] }

/-- AdminPortal.tsx `handleAddUserToGroup`: if the user exists and does not
already list the group, `updateUser` appends the group id to the user's
`groups`; independently every group with the matching id that does not
already list the user gets the user id appended to `members`. -/
def handleAddUserToGroup (s : AppState) (userId groupId : String) : AppState :=
  let users' :=
    match s.users.find? (fun u => u.id == userId) with
    | some currentUser =>
      if currentUser.groups.contains groupId then s.users
      else updateUser s.users userId
        { groups := some (currentUser.groups ++ [groupId]) }
    | none => s.users
  let groups' := s.groups.map fun g =>
    if g.id == groupId && !g.members.contains userId then
      { g with members := g.members ++ [userId] }
    else g
  { s with users := users', groups := groups' }

/-- AdminPortal.tsx `handleRemoveUserFromGroup`: if the user exists,
`updateUser` filters the group id out of the user's `groups`; independently
every group with the matching id filters the user id out of `members`. -/
def handleRemoveUserFromGroup (s : AppState) (userId groupId : String) :
    AppState :=
  let users' :=
    match s.users.find? (fun u => u.id == userId) with
    | some currentUser =>
      updateUser s.users userId
        { groups := some (currentUser.groups.filter fun gId => gId != groupId) }
    | none => s.users
  let groups' := s.groups.map fun g =>
    if g.id == groupId then
      { g with members := g.members.filter fun m => m != userId }
    else g
  { s with users := users', groups := groups' }

/-- AdminPortal.tsx `handleDeleteUser` (confirmation accepted): removes the
id from every group's member list, deletes the user from the shared list,
and — via AuthContext `deleteUser` — logs out when the deleted id is the
active session identity. -/
def handleDeleteUser (s : AppState) (userId : String) : AppState :=
  { users := deleteUserList s.users userId,
    groups := s.groups.map fun g =>
      { g with members := g.members.filter fun m => m != userId },
    sessionUser :=
      match s.sessionUser with
      | some u => if u.id == userId then none else some u
      | none => none }

/-- AuthContext.tsx `updateUserPassword` lifted to the admin state (as used
by `handlePasswordRegenerate`). -/
def updateUserPassword (s : AppState) (userId newPassword : String)
    (now : Nat) : AppState :=
  { s with users := s.users.map fun u =>
      if u.id == userId then
        { u with password := some newPassword, passwordGeneratedAt := some now }
      else u }

/-! ### Bulk import pipeline (AdminPortal.tsx) -/

/-- Loosely-typed spreadsheet row as produced by the tabular import codec;
absent cells are `none`, and number-typed cells are modelled after their
`toString()` image. -/
structure Row where
  name : Option String := none
  email : Option String := none
  phone : Option String := none
  employeeId : Option String := none
  location : Option String := none
  isAdmin : Option String := none
  deriving Repr, DecidableEq

/-- JS-falsy-or-blank test `!cell || cell.trim() === ''` on an optional
cell. -/
def blankCell : Option String → Bool
  | none => true
  | some s => strTrim s == ""

/-- Character class `[^\s@]` of the email pattern. -/
def isEmailChar (c : Char) : Bool := !c.isWhitespace && c != '@'

/-- Matching of the email pattern `^[^\s@]+@[^\s@]+\.[^\s@]+$` from
`validateUserData`: the string decomposes as `A@D` with `A` nonempty and
`@`-and-space free, `D` nonempty and `@`-and-space free, and `D` containing a
dot that has at least one character before it and one after it. -/
def emailFormatOk (s : String) : Bool :=
  let cs := s.data
  (List.range cs.length).any fun i =>
    cs.getD i ' ' == '@' &&
    (let l := cs.take i
     let r := cs.drop (i + 1)
     !l.isEmpty && l.all isEmailChar && !r.isEmpty && r.all isEmailChar &&
     (List.range r.length).any fun p =>
       r.getD p ' ' == '.' && decide (1 ≤ p) && decide (p + 2 ≤ r.length))

/-- Duplicate check of `validateUserData` against the pre-existing user
list: `getUserByEmail(userData['Email']) ||
getUserByEmployeeId(userData['Employee ID']?.toString())`, on the raw
(untrimmed) cell values exactly as the source does. -/
def rowDuplicateExisting (users : List User) (row : Row) : Bool :=
  (match row.email with
   | some e => (getUserByEmail users e).isSome
   | none => false)
  || (match row.employeeId with
      | some eid => (getUserByEmployeeId users eid).isSome
      | none => false)

/-- AdminPortal.tsx `validateUserData`: accumulates the required-field
errors, the email-shape error, and the duplicate check against the existing
user list, in source order. -/
def validateUserData (users : List User) (row : Row) : List String :=
  (if blankCell row.name then ["Name is required"] else [])
  ++ (if blankCell row.email then ["Email is required"]
      else if !emailFormatOk (row.email.getD "") then ["Invalid email format"]
      else [])
  ++ (if blankCell row.employeeId then ["Employee ID is required"] else [])
  ++ (if blankCell row.phone then ["Phone is required"] else [])
  ++ (if blankCell row.location then ["Location is required"] else [])
  ++ (if rowDuplicateExisting users row then
        ["Email or Employee ID already exists"]
      else [])

/-- Error entry of the bulk report (`{row, error, data}`). -/
structure RowError where
  row : Nat
  error : String
  data : Row
  deriving Repr, DecidableEq

/-- Password entry of the bulk report. -/
structure PasswordEntry where
  userId : String
  userName : String
  email : String
  password : String
  deriving Repr, DecidableEq

/-- Bulk upload report (AdminPortal.tsx `BulkUploadResult`). -/
structure BulkUploadResult where
  success : List User
  errors : List RowError
  passwords : List PasswordEntry
  deriving Repr, DecidableEq

/-- User record staged by `processBulkUpload` for row `i`: id is
`Date.now().toString() + '_' + i`, text fields are trimmed, the email is
lowercased, and `Is Admin` compares case-insensitively with `"true"`. -/
def mkBulkUser (baseId createdBy password : String) (now i : Nat)
    (row : Row) : User :=
  { id := baseId ++ "_" ++ toString i,
    name := strTrim (row.name.getD ""),
    email := strLower (strTrim (row.email.getD "")),
    phone := strTrim (row.phone.getD ""),
    employeeId := strTrim (row.employeeId.getD ""),
    location := strTrim (row.location.getD ""),
    isAdmin := strLower (row.isAdmin.getD "") == "true",
    groups := [],
    password := some password,
    passwordGeneratedAt := some now,
    createdBy := some createdBy,
    createdAt := none }

/-- Row loop of AdminPortal.tsx `processBulkUpload`, starting at row index
`i` (spreadsheet row number `i + 2`): a row with validation errors joins the
error list with the messages joined by `', '`; a valid row is staged into
`success` and `passwords` with the password drawn for its index.  Validation
always runs against the initial user list: the shared store is only written
once, after the loop. -/
def processRowsFrom (users : List User) (baseId createdBy : String)
    (pw : Nat → String) (now : Nat) : Nat → List Row → BulkUploadResult
  | _, [] => { success := [], errors := [], passwords := [] }
  | i, row :: rest =>
    let tail := processRowsFrom users baseId createdBy pw now (i + 1) rest
    let validationErrors := validateUserData users row
    if validationErrors.isEmpty then
      let newUser := mkBulkUser baseId createdBy (pw i) now i row
      { success := newUser :: tail.success,
        errors := tail.errors,
        passwords := { userId := newUser.id, userName := newUser.name,
                       email := newUser.email, password := pw i }
                     :: tail.passwords }
    else
      { tail with errors :=
          { row := i + 2, error := String.intercalate ", " validationErrors,
            data := row } :: tail.errors }

/-- Full pure core of `processBulkUpload`: the row loop followed by the
single `addUsers(result.success)` write; returns the report and the user
list after the write. -/
def processBulkUpload (users : List User) (rows : List Row)
    (baseId createdBy : String) (pw : Nat → String) (now : Nat) :
    BulkUploadResult × List User :=
  let result := processRowsFrom users baseId createdBy pw now 0 rows
  (result, addUsers now users result.success)

/-! ### Helper lemmas -/

/-- Unfolding of a failed duplicate-identity test into per-user facts. -/
theorem identityConflict_eq_false_iff (users : List User) (u : User) :
    identityConflict users u = false ↔
    ∀ v ∈ users, strLower v.email ≠ strLower u.email ∧
      v.employeeId ≠ u.employeeId := by
  simp [identityConflict, List.any_eq_true, not_or]

/-- Unfolding of a successful email lookup. -/
theorem getUserByEmail_isSome_iff (users : List User) (email : String) :
    (getUserByEmail users email).isSome ↔
    ∃ u ∈ users, strLower u.email = strLower email := by
  simp [getUserByEmail, List.find?_isSome]

/-- Unfolding of a successful employeeId lookup. -/
theorem getUserByEmployeeId_isSome_iff (users : List User)
    (employeeId : String) :
    (getUserByEmployeeId users employeeId).isSome ↔
    ∃ u ∈ users, u.employeeId = employeeId := by
  simp [getUserByEmployeeId, List.find?_isSome]

/-! ### C9 — generateSecure character-class coverage -/

/-- C9: every string produced by `generateSecurePassword` with length 12 —
four in-range class draws, eight in-range union draws, and an arbitrary
final shuffle — has length exactly 12 and contains at least one character
from each of the four classes. -/
theorem C9_generateSecure_coverage (i1 i2 i3 i4 : Nat) (fill : List Nat)
    (result : List Char)
    (h1 : i1 < 26) (h2 : i2 < 26) (h3 : i3 < 10) (h4 : i4 < 26)
    (hfill : fill.length = 8)
    (hperm : result.Perm (securePasswordChars i1 i2 i3 i4 fill)) :
    result.length = 12 ∧
    (∃ c ∈ result, c ∈ lowercaseChars) ∧
    (∃ c ∈ result, c ∈ uppercaseChars) ∧
    (∃ c ∈ result, c ∈ numberChars) ∧
    (∃ c ∈ result, c ∈ symbolChars) := by
  have hlen : result.length = 12 := by
    rw [hperm.length_eq]
    simp [securePasswordChars, hfill]
  have hmem : ∀ c, c ∈ securePasswordChars i1 i2 i3 i4 fill → c ∈ result :=
    fun c hc => hperm.mem_iff.mpr hc
  have hlc : lowercaseChars.length = 26 := by decide
  have huc : uppercaseChars.length = 26 := by decide
  have hnc : numberChars.length = 10 := by decide
  have hsc : symbolChars.length = 26 := by decide
  refine ⟨hlen, ?_, ?_, ?_, ?_⟩
  · exact ⟨lowercaseChars.getD i1 ' ',
      hmem _ (by simp [securePasswordChars]),
      by rw [List.getD_eq_getElem _ _ (hlc ▸ h1)]; exact List.getElem_mem _⟩
  · exact ⟨uppercaseChars.getD i2 ' ',
      hmem _ (by simp [securePasswordChars]),
      by rw [List.getD_eq_getElem _ _ (huc ▸ h2)]; exact List.getElem_mem _⟩
  · exact ⟨numberChars.getD i3 ' ',
      hmem _ (by simp [securePasswordChars]),
      by rw [List.getD_eq_getElem _ _ (hnc ▸ h3)]; exact List.getElem_mem _⟩
  · exact ⟨symbolChars.getD i4 ' ',
      hmem _ (by simp [securePasswordChars]),
      by rw [List.getD_eq_getElem _ _ (hsc ▸ h4)]; exact List.getElem_mem _⟩

/-- Witness for C9 at a concrete draw (all indices 0, identity shuffle). -/
theorem C9_generateSecure_coverage_witness :
    (securePasswordChars 0 0 0 0 [0, 0, 0, 0, 0, 0, 0, 0]).length = 12 ∧
    (∃ c ∈ securePasswordChars 0 0 0 0 [0, 0, 0, 0, 0, 0, 0, 0],
        c ∈ lowercaseChars) ∧
    (∃ c ∈ securePasswordChars 0 0 0 0 [0, 0, 0, 0, 0, 0, 0, 0],
        c ∈ uppercaseChars) ∧
    (∃ c ∈ securePasswordChars 0 0 0 0 [0, 0, 0, 0, 0, 0, 0, 0],
        c ∈ numberChars) ∧
    (∃ c ∈ securePasswordChars 0 0 0 0 [0, 0, 0, 0, 0, 0, 0, 0],
        c ∈ symbolChars) :=
  C9_generateSecure_coverage 0 0 0 0 _ _ (by decide) (by decide) (by decide)
    (by decide) (by decide) (List.Perm.refl _)

/-! ### C3 — at most one MCQ response per (messageId, userId) pair -/

/-- C3: when a (messageId, userId) pair already has exactly one stored
response, a second submission for that pair is a no-op: the store is
unchanged, the count for the pair stays 1, and the first response's
`selectedAnswer` and `isCorrect` are untouched. -/
theorem C3_duplicate_mcq_response_noop (u : User) (g : Option String)
    (rs : List MCQResponse) (mid opt : String) (mcq : MCQQuestion)
    (nid : String) (now : Nat)
    (h : countPairResponses rs mid u.id = 1) :
    handleMCQAnswer (some u) g rs mid opt mcq nid now = rs ∧
    countPairResponses (handleMCQAnswer (some u) g rs mid opt mcq nid now)
      mid u.id = 1 ∧
    (getUserResponse (handleMCQAnswer (some u) g rs mid opt mcq nid now)
        mid u.id).map MCQResponse.selectedAnswer
      = (getUserResponse rs mid u.id).map MCQResponse.selectedAnswer ∧
    (getUserResponse (handleMCQAnswer (some u) g rs mid opt mcq nid now)
        mid u.id).map MCQResponse.isCorrect
      = (getUserResponse rs mid u.id).map MCQResponse.isCorrect := by
  have hex : ∃ r ∈ rs, (r.messageId == mid && r.userId == u.id) = true := by
    by_contra hne
    push_neg at hne
    have : countPairResponses rs mid u.id = 0 := by
      unfold countPairResponses
      rw [List.length_eq_zero]
      exact List.filter_eq_nil_iff.mpr fun r hr => by
        simp only [hne r hr, Bool.false_eq_true, not_false_eq_true]
    omega
  have hfind : (rs.find? fun r =>
      r.messageId == mid && r.userId == u.id).isSome := by
    rw [List.find?_isSome]
    exact hex
  have hnoop : handleMCQAnswer (some u) g rs mid opt mcq nid now = rs := by
    unfold handleMCQAnswer
    simp [hfind]
  exact ⟨hnoop, by rw [hnoop]; exact h, by rw [hnoop], by rw [hnoop]⟩

/-- Concrete one-response store used by the C3 witness. -/
def c3Response : MCQResponse :=
  { id := "10", messageId := "m1", userId := "1", userName := "System Admin",
    userEmail := "admin@company.com", groupId := "g1",
    selectedAnswer := "B", timestamp := 5, isCorrect := false }

/-- Concrete user used by the C3 witness (id matches `c3Response.userId`). -/
def c3User : User :=
  { id := "1", email := "admin@company.com", name := "System Admin",
    phone := "+1234567890", employeeId := "ADMIN001",
    location := "Head Office", isAdmin := true, groups := [],
    password := some "admin123", passwordGeneratedAt := some 0,
    createdBy := some "system", createdAt := some 0 }

/-- Concrete MCQ payload used by the C3 witness. -/
def c3Mcq : MCQQuestion :=
  { question := "q", options := ["A", "B"], correctAnswer := "A" }

/-- Witness for C3: a user resubmitting an answer to message `m1` over a
store holding exactly one response for the pair changes nothing. -/
theorem C3_duplicate_mcq_response_noop_witness :
    handleMCQAnswer (some c3User) (some "g1") [c3Response] "m1" "A" c3Mcq
      "11" 9 = [c3Response] ∧
    countPairResponses (handleMCQAnswer (some c3User) (some "g1")
      [c3Response] "m1" "A" c3Mcq "11" 9) "m1" c3User.id = 1 ∧
    (getUserResponse (handleMCQAnswer (some c3User) (some "g1") [c3Response]
        "m1" "A" c3Mcq "11" 9) "m1" c3User.id).map MCQResponse.selectedAnswer
      = (getUserResponse [c3Response] "m1" c3User.id).map
          MCQResponse.selectedAnswer ∧
    (getUserResponse (handleMCQAnswer (some c3User) (some "g1") [c3Response]
        "m1" "A" c3Mcq "11" 9) "m1" c3User.id).map MCQResponse.isCorrect
      = (getUserResponse [c3Response] "m1" c3User.id).map
          MCQResponse.isCorrect :=
  C3_duplicate_mcq_response_noop c3User (some "g1") [c3Response] "m1" "A"
    c3Mcq "11" 9 (by decide)

/-! ### C4 — seed admin end-to-end login -/

/-- Auth state with the single seed admin persisted in the `systemUsers`
partition and nobody logged in. -/
def seedState : AuthState :=
  { usersPartition := .data initialUsers, sessionPartition := none,
    user := none, allUsers := initialUsers }

/-- C4: with the seed admin present, logging in with the upper-cased email
and the right password succeeds, the resulting in-memory and persisted
session identity is the admin with the password field absent, and logging in
with the right email but a wrong password fails. -/
theorem C4_seed_admin_login :
    (login seedState "ADMIN@COMPANY.COM" "admin123").1 = true ∧
    ((login seedState "ADMIN@COMPANY.COM" "admin123").2.user.map
        User.password) = some none ∧
    ((login seedState "ADMIN@COMPANY.COM" "admin123").2.user.map
        User.email) = some "admin@company.com" ∧
    ((login seedState "ADMIN@COMPANY.COM" "admin123").2.user.map
        User.isAdmin) = some true ∧
    ((login seedState "ADMIN@COMPANY.COM" "admin123").2.sessionPartition.map
        User.password) = some none ∧
    (login seedState "admin@company.com" "wrong").1 = false := by
  decide

/-! ### C10 — failed login is a complete no-op -/

/-- C10: a failed login attempt (unknown email, or a password that does not
compare equal) returns false and leaves the whole auth state — the stored
user partition, the in-memory session, the persisted session record, and the
in-memory user list — exactly as it was. -/
theorem C10_failed_login_preserves_state (s : AuthState)
    (email password : String)
    (h : (login s email password).1 = false) :
    (login s email password).2 = s := by
  unfold login at h ⊢
  cases hfind : (loadUsersFromStorage s.usersPartition).find?
      (fun u => strLower u.email == strLower email) with
  | none => simp [hfind]
  | some foundUser =>
    simp only [hfind] at h ⊢
    rcases Bool.eq_false_or_eq_true (foundUser.password == some password)
      with hb | hb
    · simp [hb] at h
    · simp [hb]

/-- Witness for C10: the wrong-password attempt against the seeded state
fails and leaves the state untouched. -/
theorem C10_failed_login_preserves_state_witness :
    (login seedState "admin@company.com" "wrong").1 = false ∧
    (login seedState "admin@company.com" "wrong").2 = seedState :=
  ⟨by decide,
   C10_failed_login_preserves_state seedState "admin@company.com" "wrong"
     (by decide)⟩

/-! ### C8 — storage read failure fallback -/

/-- Auth state whose in-memory snapshot has grown past the seed list while
the `systemUsers` partition has become unparsable. -/
def staleStorageState : AuthState :=
  { usersPartition := .corrupt, sessionPartition := none, user := none,
    allUsers := initialUsers ++
      [{ id := "2", email := "bob@company.com", name := "Bob",
         phone := "+1", employeeId := "EMP002", location := "Remote",
         isAdmin := false, groups := [], password := some "pw",
         passwordGeneratedAt := none, createdBy := some "1",
         createdAt := some 3 }] }

/-- Counterexample to C8 as stated: with a corrupt `systemUsers` partition,
`refreshUserData` does NOT fall back to the last good in-memory snapshot —
it replaces the two-user snapshot with the built-in seed list. -/
theorem C8_counterexample :
    (refreshUserData staleStorageState).allUsers
        ≠ staleStorageState.allUsers ∧
    (refreshUserData staleStorageState).allUsers = initialUsers := by
  constructor
  · decide
  · rfl

/-- C8 amended: a failed read of the users partition (missing or unparsable
payload) cannot crash — `loadUsersFromStorage` totally returns the built-in
`initialUsers` seed list, and `refreshUserData` installs that seed list as
the in-memory user set, discarding the previous snapshot; the other state
components are untouched. -/
theorem C8_amended_read_failure_fallback (s : AuthState)
    (h : s.usersPartition = .missing ∨ s.usersPartition = .corrupt) :
    (refreshUserData s).allUsers = initialUsers ∧
    (refreshUserData s).usersPartition = s.usersPartition ∧
    (refreshUserData s).sessionPartition = s.sessionPartition ∧
    (refreshUserData s).user = s.user := by
  rcases h with h | h <;>
    simp [refreshUserData, loadUsersFromStorage, h]

/-- Witness for the amended C8 at the concrete stale state. -/
theorem C8_amended_read_failure_fallback_witness :
    (refreshUserData staleStorageState).allUsers = initialUsers ∧
    (refreshUserData staleStorageState).usersPartition
        = staleStorageState.usersPartition ∧
    (refreshUserData staleStorageState).sessionPartition
        = staleStorageState.sessionPartition ∧
    (refreshUserData staleStorageState).user = staleStorageState.user :=
  C8_amended_read_failure_fallback staleStorageState (Or.inr rfl)

/-! ### C6 — duplicate single-user creation -/

/-- C6: when draft D1 does not collide with the current store and D2 shares
D1's lowercased email or employeeId, creating D1 then D2 succeeds only for
D1: the first call reports `created` and grows the store by one, the second
reports `duplicateIdentity` and leaves the store exactly as the first call
left it. -/
theorem C6_duplicate_create_rejected (s : AppState) (d1 d2 : NewUserDraft)
    (id1 pw1 id2 pw2 : String) (t1 t2 : Nat)
    (he : getUserByEmail s.users d1.email = none)
    (hei : getUserByEmployeeId s.users d1.employeeId = none)
    (hcol : strLower d2.email = strLower d1.email
            ∨ d2.employeeId = d1.employeeId) :
    (∃ u, (handleCreateUser s d1 id1 pw1 t1).1 = .created u) ∧
    (handleCreateUser s d1 id1 pw1 t1).2.users.length
        = s.users.length + 1 ∧
    (handleCreateUser (handleCreateUser s d1 id1 pw1 t1).2 d2 id2 pw2
        t2).1 = .duplicateIdentity ∧
    (handleCreateUser (handleCreateUser s d1 id1 pw1 t1).2 d2 id2 pw2
        t2).2 = (handleCreateUser s d1 id1 pw1 t1).2 := by
  have he' : ∀ u ∈ s.users, strLower u.email ≠ strLower d1.email := by
    simpa [getUserByEmail, List.find?_eq_none] using he
  have hei' : ∀ u ∈ s.users, u.employeeId ≠ d1.employeeId := by
    simpa [getUserByEmployeeId, List.find?_eq_none] using hei
  have h1 : handleCreateUser s d1 id1 pw1 t1 =
      (.created
        { id := id1, email := d1.email, name := d1.name, phone := d1.phone,
          employeeId := d1.employeeId, location := d1.location,
          isAdmin := d1.isAdmin, groups := [], password := some pw1,
          passwordGeneratedAt := some t1,
          createdBy := some ((s.sessionUser.map User.id).getD "unknown"),
          createdAt := none },
       { s with users := s.users ++
          [{ id := id1, email := d1.email, name := d1.name,
             phone := d1.phone, employeeId := d1.employeeId,
             location := d1.location, isAdmin := d1.isAdmin, groups := [],
             password := some pw1, passwordGeneratedAt := some t1,
             createdBy := some ((s.sessionUser.map User.id).getD "unknown"),
             createdAt := some t1 }] }) := by
    have hconf : identityConflict s.users
        { id := id1, email := d1.email, name := d1.name, phone := d1.phone,
          employeeId := d1.employeeId, location := d1.location,
          isAdmin := d1.isAdmin, groups := [], password := some pw1,
          passwordGeneratedAt := some t1,
          createdBy := some ((s.sessionUser.map User.id).getD "unknown"),
          createdAt := none } = false := by
      rw [identityConflict_eq_false_iff]
      exact fun v hv => ⟨he' v hv, hei' v hv⟩
    unfold handleCreateUser
    simp [he, hei, addUser, hconf]
  rw [h1]
  have hcond2 : ((getUserByEmail (handleCreateUser s d1 id1 pw1 t1).2.users
      d2.email).isSome
      || (getUserByEmployeeId (handleCreateUser s d1 id1 pw1 t1).2.users
          d2.employeeId).isSome) = true := by
    rw [h1]
    rcases hcol with hcol | hcol
    · apply Bool.or_eq_true_iff.mpr
      left
      rw [getUserByEmail_isSome_iff]
      exact ⟨_, List.mem_append_right _ (List.mem_singleton.mpr rfl),
        by simpa using hcol.symm⟩
    · apply Bool.or_eq_true_iff.mpr
      right
      rw [getUserByEmployeeId_isSome_iff]
      exact ⟨_, List.mem_append_right _ (List.mem_singleton.mpr rfl),
        by simpa using hcol.symm⟩
  rw [h1] at hcond2
  refine ⟨⟨_, rfl⟩, by simp, ?_, ?_⟩ <;>
    · unfold handleCreateUser
      simp only [hcond2]
      simp

/-- Admin state used by the C6 witness: seed users, no groups, nobody
logged in. -/
def c6State : AppState :=
  { users := initialUsers, groups := [], sessionUser := none }

/-- First create-user draft of the C6 witness. -/
def c6Draft1 : NewUserDraft :=
  { email := "carol@company.com", name := "Carol", phone := "+2",
    employeeId := "EMP010", location := "Paris", isAdmin := false }

/-- Second create-user draft of the C6 witness: same employeeId, different
email. -/
def c6Draft2 : NewUserDraft :=
  { email := "carl@company.com", name := "Carl", phone := "+3",
    employeeId := "EMP010", location := "Lyon", isAdmin := false }

/-- Witness for C6 at the concrete drafts. -/
theorem C6_duplicate_create_rejected_witness :
    (∃ u, (handleCreateUser c6State c6Draft1 "20" "pw1" 4).1
        = .created u) ∧
    (handleCreateUser c6State c6Draft1 "20" "pw1" 4).2.users.length
        = c6State.users.length + 1 ∧
    (handleCreateUser (handleCreateUser c6State c6Draft1 "20" "pw1" 4).2
        c6Draft2 "21" "pw2" 5).1 = .duplicateIdentity ∧
    (handleCreateUser (handleCreateUser c6State c6Draft1 "20" "pw1" 4).2
        c6Draft2 "21" "pw2" 5).2
      = (handleCreateUser c6State c6Draft1 "20" "pw1" 4).2 :=
  C6_duplicate_create_rejected c6State c6Draft1 c6Draft2 "20" "pw1" "21"
    "pw2" 4 5 (by decide) (by decide) (Or.inr rfl)

/-! ### C1 — user-identity uniqueness invariant -/

/-- States of the user store reachable from the seed list through the three
repository operations exactly as the claim names them: `addUser`,
`addUsers`, `updateUser`, with arbitrary arguments. -/
inductive UserStoreReachable : List User → Prop where
  | init : UserStoreReachable initialUsers
  | stepAddUser (now : Nat) (u : User) {s : List User} :
      UserStoreReachable s → UserStoreReachable (addUser now s u)
  | stepAddUsers (now : Nat) (batch : List User) {s : List User} :
      UserStoreReachable s → UserStoreReachable (addUsers now s batch)
  | stepUpdateUser (uid : String) (upd : UserUpdate) {s : List User} :
      UserStoreReachable s → UserStoreReachable (updateUser s uid upd)

/-- States reachable through the same operations restricted as the amended
claim requires: `addUsers` batches are internally collision-free, and
`updateUser` never touches `email` or `employeeId`. -/
inductive UserStoreReachableChecked : List User → Prop where
  | init : UserStoreReachableChecked initialUsers
  | stepAddUser (now : Nat) (u : User) {s : List User} :
      UserStoreReachableChecked s → UserStoreReachableChecked (addUser now s u)
  | stepAddUsers (now : Nat) (batch : List User) {s : List User}
      (hbatch : uniqueIdentities batch) :
      UserStoreReachableChecked s →
      UserStoreReachableChecked (addUsers now s batch)
  | stepUpdateUser (uid : String) (upd : UserUpdate) {s : List User}
      (hemail : upd.email = none) (hempid : upd.employeeId = none) :
      UserStoreReachableChecked s →
      UserStoreReachableChecked (updateUser s uid upd)

/-- AuthContext `addUser` preserves identity uniqueness. -/
theorem uniqueIdentities_addUser (now : Nat) (users : List User) (u : User)
    (h : uniqueIdentities users) : uniqueIdentities (addUser now users u) := by
  unfold addUser
  split
  · exact h
  · rename_i hconf
    have hc := (identityConflict_eq_false_iff users u).mp
      (Bool.eq_false_iff.mpr hconf)
    rw [uniqueIdentities, List.pairwise_append]
    refine ⟨h, List.pairwise_singleton _ _, ?_⟩
    intro a ha b hb
    simp only [List.mem_singleton] at hb
    subst hb
    exact hc a ha

/-- AuthContext `addUsers` preserves identity uniqueness provided the batch
itself is internally collision-free. -/
theorem uniqueIdentities_addUsers (now : Nat) (users batch : List User)
    (h : uniqueIdentities users) (hbatch : uniqueIdentities batch) :
    uniqueIdentities (addUsers now users batch) := by
  unfold addUsers
  rw [uniqueIdentities, List.pairwise_append]
  refine ⟨h, ?_, ?_⟩
  · exact List.Pairwise.map _ (fun a b hab => hab) (hbatch.filter _)
  · intro a ha b hb
    simp only [List.mem_map, List.mem_filter] at hb
    obtain ⟨b', ⟨hb'mem, hb'conf⟩, rfl⟩ := hb
    have hb'c : identityConflict users b' = false := by simpa using hb'conf
    exact (identityConflict_eq_false_iff users b').mp hb'c a ha

/-- AuthContext `updateUser` preserves identity uniqueness provided the
update changes neither `email` nor `employeeId`. -/
theorem uniqueIdentities_updateUser (users : List User) (uid : String)
    (upd : UserUpdate) (h : uniqueIdentities users)
    (hemail : upd.email = none) (hempid : upd.employeeId = none) :
    uniqueIdentities (updateUser users uid upd) := by
  have hkeep : ∀ x : User,
      (if x.id == uid then applyUpdate x upd else x).email = x.email ∧
      (if x.id == uid then applyUpdate x upd else x).employeeId
        = x.employeeId := by
    intro x
    rcases Bool.eq_false_or_eq_true (x.id == uid) with hx | hx <;>
      simp [hx, applyUpdate, hemail, hempid]
  unfold updateUser
  refine List.Pairwise.map _ (fun a b hab => ?_) h
  rw [(hkeep a).1, (hkeep a).2, (hkeep b).1, (hkeep b).2]
  exact hab

/-- Duplicate draft used by the C1 counterexample. -/
def c1DupUser : User :=
  { id := "9", email := "dup@company.com", name := "Dup", phone := "+9",
    employeeId := "EMP099", location := "Berlin", isAdmin := false,
    groups := [], password := some "pw", passwordGeneratedAt := none,
    createdBy := some "1", createdAt := none }

/-- Counterexample to C1 as stated: the store obtained by one `addUsers`
call whose batch repeats the same draft twice is reachable through the
repository operations, yet it contains two users sharing a normalized email
and an employeeId — `addUsers` only screens drafts against the pre-existing
list, never against each other. -/
theorem C1_counterexample :
    UserStoreReachable (addUsers 0 initialUsers [c1DupUser, c1DupUser]) ∧
    ¬ uniqueIdentities (addUsers 0 initialUsers [c1DupUser, c1DupUser]) :=
  ⟨.stepAddUsers 0 [c1DupUser, c1DupUser] .init, by decide⟩

/-- C1 amended: identity uniqueness (no two users share a lowercased email
or an employeeId) is an invariant of every store reachable through
`addUser`, through `addUsers` restricted to internally collision-free
batches, and through `updateUser` restricted to updates that touch neither
`email` nor `employeeId`; unrestricted `addUsers` and `updateUser` can
violate it. -/
theorem C1_amended_identity_uniqueness (s : List User)
    (h : UserStoreReachableChecked s) : uniqueIdentities s := by
  induction h with
  | init => decide
  | stepAddUser now u _ ih => exact uniqueIdentities_addUser now _ u ih
  | stepAddUsers now batch hbatch _ ih =>
    exact uniqueIdentities_addUsers now _ batch ih hbatch
  | stepUpdateUser uid upd hemail hempid _ ih =>
    exact uniqueIdentities_updateUser _ uid upd ih hemail hempid

/-- Witness for the amended C1 at a concrete reachable store. -/
theorem C1_amended_identity_uniqueness_witness :
    uniqueIdentities (addUser 3 initialUsers c1DupUser) :=
  C1_amended_identity_uniqueness _
    (.stepAddUser 3 c1DupUser .init)

/-! ### C7 — user deletion cascades -/

/-- C7: deleting a user removes the id from every group's member list in
the same operation, removes the user record itself, and terminates the
session when the deleted id is the active session identity. -/
theorem C7_delete_user_cascades (s : AppState) (uid : String) :
    (∀ g ∈ (handleDeleteUser s uid).groups, uid ∉ g.members) ∧
    (∀ u ∈ (handleDeleteUser s uid).users, u.id ≠ uid) ∧
    (∀ su, s.sessionUser = some su → su.id = uid →
      (handleDeleteUser s uid).sessionUser = none) := by
  refine ⟨?_, ?_, ?_⟩
  · intro g hg
    simp only [handleDeleteUser, List.mem_map] at hg
    obtain ⟨g', _, rfl⟩ := hg
    simp [List.mem_filter]
  · intro u hu
    simp only [handleDeleteUser, deleteUserList, List.mem_filter] at hu
    simpa using hu.2
  · intro su hsu heq
    simp [handleDeleteUser, hsu, heq]

/-- Second user of the C7 witness state, member of both groups and the
active session identity. -/
def c7Bob : User :=
  { id := "2", email := "bob@company.com", name := "Bob", phone := "+1",
    employeeId := "EMP002", location := "Remote", isAdmin := false,
    groups := ["g1", "g2"], password := some "pw",
    passwordGeneratedAt := none, createdBy := some "1", createdAt := some 3 }

/-- Admin state of the C7 witness: the seed admin plus Bob, who belongs to
two groups and is logged in. -/
def c7State : AppState :=
  { users := initialUsers ++ [c7Bob],
    groups :=
      [{ id := "g1", name := "G1", description := "", members := ["2", "1"],
         createdBy := "1" },
       { id := "g2", name := "G2", description := "", members := ["2"],
         createdBy := "1" }],
    sessionUser := some { c7Bob with password := none } }

/-- Witness for C7: deleting Bob empties him out of both concrete groups
and clears the session. -/
theorem C7_delete_user_cascades_witness :
    "2" ∉ ((handleDeleteUser c7State "2").groups.getD 0
      { id := "", name := "", description := "", members := [],
        createdBy := "" }).members ∧
    "2" ∉ ((handleDeleteUser c7State "2").groups.getD 1
      { id := "", name := "", description := "", members := [],
        createdBy := "" }).members ∧
    (handleDeleteUser c7State "2").sessionUser = none :=
  ⟨(C7_delete_user_cascades c7State "2").1 _ (by decide),
   (C7_delete_user_cascades c7State "2").1 _ (by decide),
   (C7_delete_user_cascades c7State "2").2.2 { c7Bob with password := none }
     rfl rfl⟩

/-! ### C2 — bulk import collision handling -/

/-- Normalized email of a draft row, in the claim's sense. -/
def claimRowEmail (r : Row) : String := strLower (strTrim (r.email.getD ""))

/-- Normalized employeeId of a draft row, in the claim's sense. -/
def claimRowEmployeeId (r : Row) : String := strTrim (r.employeeId.getD "")

/-- Collision in the claim's sense: draft `i` of the batch collides when its
normalized email or employeeId matches an existing user or an earlier draft
of the same batch. -/
def claimCollides (users : List User) (rows : List Row) (i : Nat) : Bool :=
  (users.any fun u =>
    strLower u.email == claimRowEmail (rows.getD i {})
    || u.employeeId == claimRowEmployeeId (rows.getD i {}))
  || ((List.range i).any fun j =>
    claimRowEmail (rows.getD j {}) == claimRowEmail (rows.getD i {})
    || claimRowEmployeeId (rows.getD j {})
        == claimRowEmployeeId (rows.getD i {}))

/-- Number K of colliding drafts in the claim's sense. -/
def claimCollisionCount (users : List User) (rows : List Row) : Nat :=
  ((List.range rows.length).filter (claimCollides users rows)).length

/-- Valid draft row used (twice) by the C2 counterexample. -/
def c2Row : Row :=
  { name := some "Jo", email := some "jo@company.com", phone := some "+5",
    employeeId := some "EMP005", location := some "NY",
    isAdmin := some "FALSE" }

/-- Counterexample to C2 as stated: a batch of the same valid draft twice
has N = 2 and K = 1 (the second draft collides with the first), so the claim
demands 1 created user and 1 skipped entry; the pipeline instead reports 2
created users and 0 errors, and both duplicates are persisted — neither
`validateUserData` nor `addUsers` compares drafts of the same batch with
each other. -/
theorem C2_counterexample :
    claimCollisionCount initialUsers [c2Row, c2Row] = 1 ∧
    (processBulkUpload initialUsers [c2Row, c2Row] "100" "1"
        (fun _ => "pw") 7).1.success.length = 2 ∧
    (processBulkUpload initialUsers [c2Row, c2Row] "100" "1"
        (fun _ => "pw") 7).1.errors.length = 0 ∧
    (processBulkUpload initialUsers [c2Row, c2Row] "100" "1"
        (fun _ => "pw") 7).2.length = initialUsers.length + 2 := by
  decide

/-- Field-level validity of a row (all required cells present and
non-blank, email shape accepted). -/
def rowFieldsValid (r : Row) : Bool :=
  !blankCell r.name && !blankCell r.email && emailFormatOk (r.email.getD "")
  && !blankCell r.employeeId && !blankCell r.phone && !blankCell r.location

/-- Validation of a field-valid row reduces to the existing-user duplicate
check. -/
theorem validateUserData_of_fieldsValid (users : List User) (r : Row)
    (h : rowFieldsValid r = true) :
    validateUserData users r =
    if rowDuplicateExisting users r then
      ["Email or Employee ID already exists"]
    else [] := by
  unfold rowFieldsValid at h
  simp only [Bool.and_eq_true, Bool.not_eq_true'] at h
  obtain ⟨⟨⟨⟨⟨h1, h2⟩, h3⟩, h4⟩, h5⟩, h6⟩ := h
  unfold validateUserData
  rw [h1, h2, h3, h4, h5, h6]
  simp

/-- Loop specification behind the amended C2: over field-valid rows the
report stages exactly the rows that do not duplicate an existing user, in
input order with their original indices, and accumulates one error entry
per duplicating row. -/
theorem processRowsFrom_spec (users : List User) (baseId createdBy : String)
    (pw : Nat → String) (now : Nat) (rows : List Row) (i : Nat)
    (hvalid : ∀ r ∈ rows, rowFieldsValid r = true) :
    (processRowsFrom users baseId createdBy pw now i rows).success
      = ((List.enumFrom i rows).filter fun p =>
            !rowDuplicateExisting users p.2).map
          (fun p => mkBulkUser baseId createdBy (pw p.1) now p.1 p.2) ∧
    (processRowsFrom users baseId createdBy pw now i rows).success.length
      = rows.length - rows.countP (rowDuplicateExisting users) ∧
    (processRowsFrom users baseId createdBy pw now i rows).errors.length
      = rows.countP (rowDuplicateExisting users) := by
  induction rows generalizing i with
  | nil => simp [processRowsFrom]
  | cons r rest ih =>
    have hr := hvalid r (List.mem_cons_self r rest)
    obtain ⟨ihs, ihl, ihe⟩ :=
      ih (i + 1) fun r' hr' => hvalid r' (List.mem_cons_of_mem _ hr')
    have hcount := List.countP_le_length
      (p := rowDuplicateExisting users) (l := rest)
    rcases Bool.eq_false_or_eq_true (rowDuplicateExisting users r)
      with hd | hd
    · refine ⟨?_, ?_, ?_⟩
      · simp only [processRowsFrom]
        rw [validateUserData_of_fieldsValid users r hr]
        simp [hd, List.enumFrom, ihs]
      · simp only [processRowsFrom]
        rw [validateUserData_of_fieldsValid users r hr]
        simp only [hd, if_true, List.isEmpty_cons, Bool.false_eq_true,
          if_false, List.length_cons, List.countP_cons, ihl]
        simp [hd]
      · simp only [processRowsFrom]
        rw [validateUserData_of_fieldsValid users r hr]
        simp [hd, List.countP_cons, ihe]
    · refine ⟨?_, ?_, ?_⟩
      · simp only [processRowsFrom]
        rw [validateUserData_of_fieldsValid users r hr]
        simp [hd, List.enumFrom, ihs]
      · simp only [processRowsFrom]
        rw [validateUserData_of_fieldsValid users r hr]
        simp only [hd, List.isEmpty_nil, if_true, List.length_cons,
          List.countP_cons, ihl]
        simp [hd, ihl]
        omega
      · simp only [processRowsFrom]
        rw [validateUserData_of_fieldsValid users r hr]
        simp [hd, List.countP_cons, ihe]

/-- C2 amended: over N field-valid drafts of which K duplicate an EXISTING
user (by the raw email/employeeId lookup `validateUserData` performs), the
pipeline stages exactly N−K created users and K error entries, and the
surviving users appear in input order (they are the in-order filter of the
batch); drafts colliding only with an earlier draft of the same batch are
not counted, not skipped, and all get created. -/
theorem C2_amended_bulk_report (users : List User) (rows : List Row)
    (baseId createdBy : String) (pw : Nat → String) (now : Nat)
    (hvalid : ∀ r ∈ rows, rowFieldsValid r = true) :
    (processBulkUpload users rows baseId createdBy pw now).1.success
      = ((List.enumFrom 0 rows).filter fun p =>
            !rowDuplicateExisting users p.2).map
          (fun p => mkBulkUser baseId createdBy (pw p.1) now p.1 p.2) ∧
    (processBulkUpload users rows baseId createdBy pw now).1.success.length
      = rows.length - rows.countP (rowDuplicateExisting users) ∧
    (processBulkUpload users rows baseId createdBy pw now).1.errors.length
      = rows.countP (rowDuplicateExisting users) :=
  processRowsFrom_spec users baseId createdBy pw now rows 0 hvalid

/-- Second draft row of the C2 witness, duplicating the seed admin's
email. -/
def c2RowDup : Row :=
  { name := some "Eve", email := some "Admin@Company.com", phone := some "+6",
    employeeId := some "EMP006", location := some "LA",
    isAdmin := some "TRUE" }

/-- Witness for the amended C2 over a concrete batch of three field-valid
rows of which one duplicates the seed admin. -/
theorem C2_amended_bulk_report_witness :
    (processBulkUpload initialUsers [c2Row, c2RowDup, c2Row] "100" "1"
        (fun _ => "pw") 7).1.success
      = ((List.enumFrom 0 [c2Row, c2RowDup, c2Row]).filter fun p =>
            !rowDuplicateExisting initialUsers p.2).map
          (fun p => mkBulkUser "100" "1" "pw" 7 p.1 p.2) ∧
    (processBulkUpload initialUsers [c2Row, c2RowDup, c2Row] "100" "1"
        (fun _ => "pw") 7).1.success.length
      = [c2Row, c2RowDup, c2Row].length
        - [c2Row, c2RowDup, c2Row].countP
            (rowDuplicateExisting initialUsers) ∧
    (processBulkUpload initialUsers [c2Row, c2RowDup, c2Row] "100" "1"
        (fun _ => "pw") 7).1.errors.length
      = [c2Row, c2RowDup, c2Row].countP (rowDuplicateExisting initialUsers) :=
  C2_amended_bulk_report initialUsers [c2Row, c2RowDup, c2Row] "100" "1"
    (fun _ => "pw") 7 (by decide)

/-! ### C5 — bidirectional group membership -/

/-- Ids of the stored users. -/
def userIds (s : AppState) : List String := s.users.map User.id

/-- Ids of the stored groups. -/
def groupIds (s : AppState) : List String := s.groups.map Group.id

/-- Bidirectional membership consistency: for every stored user and group,
the user lists the group iff the group lists the user. -/
def bidirConsistent (s : AppState) : Prop :=
  ∀ u ∈ s.users, ∀ g ∈ s.groups, (g.id ∈ u.groups ↔ u.id ∈ g.members)

/-- Full state invariant carried through the reachability induction: ids on
both sides are pairwise distinct, every stored group reference resolves,
every stored member reference resolves, and membership is bidirectionally
consistent. -/
def StateInv (s : AppState) : Prop :=
  s.users.Pairwise (fun a b => a.id ≠ b.id) ∧
  s.groups.Pairwise (fun a b => a.id ≠ b.id) ∧
  (∀ u ∈ s.users, ∀ gid ∈ u.groups, gid ∈ groupIds s) ∧
  (∀ g ∈ s.groups, ∀ uid ∈ g.members, uid ∈ userIds s) ∧
  bidirConsistent s

/-- Admin states reachable from a freshly-loaded portal through the
AdminPortal handlers, with the `Date.now()`-generated ids modelled as fresh
and the membership handlers invoked the way the UI invokes them (on a
listed user and a listed group). -/
inductive AdminReachable : AppState → Prop where
  | init (su : Option User) :
      AdminReachable { users := initialUsers, groups := [], sessionUser := su }
  | stepCreateUser (d : NewUserDraft) (newId pw : String) (now : Nat)
      {s : AppState} (hfresh : newId ∉ userIds s) :
      AdminReachable s → AdminReachable (handleCreateUser s d newId pw now).2
  | stepCreateGroup (name desc newId : String) {s : AppState}
      (hfresh : newId ∉ groupIds s) :
      AdminReachable s → AdminReachable (handleCreateGroup s name desc newId)
  | stepAddMember (uid gid : String) {s : AppState}
      (hu : uid ∈ userIds s) (hg : gid ∈ groupIds s) :
      AdminReachable s → AdminReachable (handleAddUserToGroup s uid gid)
  | stepRemoveMember (uid gid : String) {s : AppState} :
      AdminReachable s → AdminReachable (handleRemoveUserFromGroup s uid gid)
  | stepDeleteUser (uid : String) {s : AppState} :
      AdminReachable s → AdminReachable (handleDeleteUser s uid)
  | stepUpdatePassword (uid pw : String) (now : Nat) {s : AppState} :
      AdminReachable s → AdminReachable (updateUserPassword s uid pw now)

/-- Single-user creation preserves the state invariant when the generated
id is fresh. -/
theorem stateInv_createUser (s : AppState) (d : NewUserDraft)
    (newId pw : String) (now : Nat) (hfresh : newId ∉ userIds s)
    (h : StateInv s) : StateInv (handleCreateUser s d newId pw now).2 := by
  obtain ⟨hup, hgp, hgr, hmr, hbd⟩ := h
  have hfresh' : ∀ u ∈ s.users, u.id ≠ newId := by
    intro u hu heq
    exact hfresh (heq ▸ List.mem_map_of_mem User.id hu)
  unfold handleCreateUser
  split
  · exact ⟨hup, hgp, hgr, hmr, hbd⟩
  · unfold addUser
    dsimp only
    split
    · exact ⟨hup, hgp, hgr, hmr, hbd⟩
    · refine ⟨?_, hgp, ?_, ?_, ?_⟩
      · rw [List.pairwise_append]
        refine ⟨hup, List.pairwise_singleton _ _, ?_⟩
        intro a ha b hb
        simp only [List.mem_singleton] at hb
        subst hb
        exact hfresh' a ha
      · intro u hu gid hgid
        rcases List.mem_append.mp hu with hu | hu
        · exact hgr u hu gid hgid
        · simp only [List.mem_singleton] at hu
          subst hu
          simp at hgid
      · intro g hg uid huid
        have := hmr g hg uid huid
        simpa [userIds] using Or.inl (by simpa [userIds] using this)
      · intro u hu g hg
        rcases List.mem_append.mp hu with hu | hu
        · exact hbd u hu g hg
        · simp only [List.mem_singleton] at hu
          subst hu
          simp only []
          constructor
          · intro hmem
            simp at hmem
          · intro hmem
            exact absurd (hmr g hg _ hmem) (by simpa using hfresh)

/-- Group creation preserves the state invariant when the generated id is
fresh. -/
theorem stateInv_createGroup (s : AppState) (name desc newId : String)
    (hfresh : newId ∉ groupIds s) (h : StateInv s) :
    StateInv (handleCreateGroup s name desc newId) := by
  obtain ⟨hup, hgp, hgr, hmr, hbd⟩ := h
  have hfresh' : ∀ g ∈ s.groups, g.id ≠ newId := by
    intro g hg heq
    exact hfresh (heq ▸ List.mem_map_of_mem Group.id hg)
  unfold handleCreateGroup
  split
  · exact ⟨hup, hgp, hgr, hmr, hbd⟩
  · refine ⟨hup, ?_, ?_, ?_, ?_⟩
    · rw [List.pairwise_append]
      refine ⟨hgp, List.pairwise_singleton _ _, ?_⟩
      intro a ha b hb
      simp only [List.mem_singleton] at hb
      subst hb
      exact hfresh' a ha
    · intro u hu gid hgid
      have := hgr u hu gid hgid
      simpa [groupIds] using Or.inl (by simpa [groupIds] using this)
    · intro g hg uid huid
      rcases List.mem_append.mp hg with hg | hg
      · exact hmr g hg uid huid
      · simp only [List.mem_singleton] at hg
        subst hg
        simp at huid
    · intro u hu g hg
      rcases List.mem_append.mp hg with hg | hg
      · exact hbd u hu g hg
      · simp only [List.mem_singleton] at hg
        subst hg
        simp only []
        constructor
        · intro hmem
          exact absurd (hgr u hu _ hmem) (by simpa using hfresh)
        · intro hmem
          simp at hmem

/-- Mapping an id-preserving function over users keeps the ids pairwise
distinct. -/
theorem pairwiseUserIds_map (f : User → User) (hf : ∀ u, (f u).id = u.id)
    {l : List User} (h : l.Pairwise fun a b => a.id ≠ b.id) :
    (l.map f).Pairwise fun a b => a.id ≠ b.id :=
  List.Pairwise.map f (fun a b hab => by rw [hf, hf]; exact hab) h

/-- Mapping an id-preserving function over groups keeps the ids pairwise
distinct. -/
theorem pairwiseGroupIds_map (f : Group → Group)
    (hf : ∀ g, (f g).id = g.id) {l : List Group}
    (h : l.Pairwise fun a b => a.id ≠ b.id) :
    (l.map f).Pairwise fun a b => a.id ≠ b.id :=
  List.Pairwise.map f (fun a b hab => by rw [hf, hf]; exact hab) h

/-- Mapping an id-preserving function over users leaves the id list
unchanged. -/
theorem userIds_map_of_id_preserving (f : User → User)
    (hf : ∀ u, (f u).id = u.id) (l : List User) :
    (l.map f).map User.id = l.map User.id := by
  rw [List.map_map]
  exact List.map_congr_left fun u _ => hf u

/-- Mapping an id-preserving function over groups leaves the id list
unchanged. -/
theorem groupIds_map_of_id_preserving (f : Group → Group)
    (hf : ∀ g, (f g).id = g.id) (l : List Group) :
    (l.map f).map Group.id = l.map Group.id := by
  rw [List.map_map]
  exact List.map_congr_left fun g _ => hf g

/-- Decoding of `Array.contains`-style boolean membership on string
lists. -/
theorem contains_iff_mem {a : String} {l : List String} :
    l.contains a = true ↔ a ∈ l := by
  simp [List.contains, List.elem_iff]

/-- Adding a listed user to a listed group preserves the state invariant. -/
theorem stateInv_addMember (s : AppState) (uid gid : String)
    (hu : uid ∈ userIds s) (hg : gid ∈ groupIds s) (h : StateInv s) :
    StateInv (handleAddUserToGroup s uid gid) := by
  obtain ⟨hup, hgp, hgr, hmr, hbd⟩ := h
  obtain ⟨cu, hcu⟩ : ∃ cu, s.users.find? (fun u => u.id == uid) = some cu := by
    apply Option.isSome_iff_exists.mp
    rw [List.find?_isSome]
    obtain ⟨u, hu', hid⟩ := List.mem_map.mp hu
    exact ⟨u, hu', by simp [hid]⟩
  have hcu_mem : cu ∈ s.users := List.mem_of_find?_eq_some hcu
  have hcu_id : cu.id = uid := by simpa using List.find?_some hcu
  cases hA : cu.groups.contains gid with
  | true =>
    -- the user already lists the group: both sides are already consistent
    have hgroups_id : ∀ g ∈ s.groups,
        (if g.id == gid && !g.members.contains uid then
          { g with members := g.members ++ [uid] } else g) = g := by
      intro g hgm
      cases hxg : (g.id == gid) with
      | false => simp
      | true =>
        have hgid : g.id = gid := by simpa using hxg
        have hgin : gid ∈ cu.groups := contains_iff_mem.mp hA
        have huin : uid ∈ g.members := by
          rw [← hcu_id]
          exact (hbd cu hcu_mem g hgm).mp (hgid ▸ hgin)
        simp [hxg, huin]
    have hred : handleAddUserToGroup s uid gid =
        { s with users := s.users, groups := s.groups } := by
      simp only [handleAddUserToGroup, hcu, hA, if_true]
      congr 1
      rw [List.map_congr_left hgroups_id]
      simp
    rw [hred]
    exact ⟨hup, hgp, hgr, hmr, hbd⟩
  | false =>
    -- the user does not list the group yet: both sides get updated
    have hgnin : gid ∉ cu.groups := by
      intro hin
      rw [← contains_iff_mem, hA] at hin
      exact Bool.false_ne_true hin
    have hred : handleAddUserToGroup s uid gid =
        { s with
          users := updateUser s.users uid
            { groups := some (cu.groups ++ [gid]) },
          groups := s.groups.map fun g =>
            if g.id == gid && !g.members.contains uid then
              { g with members := g.members ++ [uid] }
            else g } := by
      simp [handleAddUserToGroup, hcu, hA, hgnin]
    rw [hred]
    have hfu_id : ∀ u : User,
        (if u.id == uid then
          applyUpdate u { groups := some (cu.groups ++ [gid]) } else u).id
        = u.id := by
      intro u
      cases hx : (u.id == uid) <;> simp [applyUpdate]
    have hfg_id : ∀ g : Group,
        (if g.id == gid && !g.members.contains uid then
          { g with members := g.members ++ [uid] } else g).id = g.id := by
      intro g
      cases hx : (g.id == gid && !g.members.contains uid) <;> simp
    refine ⟨?_, ?_, ?_, ?_, ?_⟩
    · exact pairwiseUserIds_map _ hfu_id hup
    · exact pairwiseGroupIds_map _ hfg_id hgp
    · intro u' hu' gid' hgid'
      simp only [updateUser, List.mem_map] at hu'
      obtain ⟨u, hum, rfl⟩ := hu'
      simp only [groupIds]
      rw [groupIds_map_of_id_preserving _ hfg_id]
      cases hx : (u.id == uid) with
      | false =>
        rw [hx] at hgid'
        simp only [Bool.false_eq_true, if_false] at hgid'
        simpa [groupIds] using hgr u hum gid' hgid'
      | true =>
        rw [hx] at hgid'
        simp only [if_true, applyUpdate, Option.getD] at hgid'
        rcases List.mem_append.mp hgid' with hin | hin
        · simpa [groupIds] using hgr cu hcu_mem gid' hin
        · simp only [List.mem_singleton] at hin
          subst hin
          simpa [groupIds] using hg
    · intro g' hg' uid' huid'
      simp only [List.mem_map] at hg'
      obtain ⟨g, hgm, rfl⟩ := hg'
      simp only [userIds, updateUser]
      rw [userIds_map_of_id_preserving _ hfu_id]
      cases hx : (g.id == gid && !g.members.contains uid) with
      | false =>
        rw [hx] at huid'
        simp only [Bool.false_eq_true, if_false] at huid'
        exact hmr g hgm uid' huid'
      | true =>
        rw [hx] at huid'
        simp only [if_true] at huid'
        rcases List.mem_append.mp huid' with hin | hin
        · exact hmr g hgm uid' hin
        · simp only [List.mem_singleton] at hin
          subst hin
          exact hu
    · intro u' hu' g' hg'
      simp only [updateUser, List.mem_map] at hu' hg'
      obtain ⟨u, hum, rfl⟩ := hu'
      obtain ⟨g, hgm, rfl⟩ := hg'
      have hbdug := hbd u hum g hgm
      cases hxu : (u.id == uid) with
      | false =>
        have hune : u.id ≠ uid := by simpa using hxu
        cases hxg : (g.id == gid) with
        | false =>
          simp only [Bool.false_eq_true, if_false, Bool.false_and]
          exact hbdug
        | true =>
          cases hc : g.members.contains uid with
          | true =>
            simp only [Bool.false_eq_true, if_false, hc, Bool.not_true,
              Bool.and_false]
            exact hbdug
          | false =>
            simp only [Bool.false_eq_true, if_false, hc, Bool.not_false,
              Bool.and_true, hxg, if_true, List.mem_append,
              List.mem_singleton]
            constructor
            · intro hin
              exact Or.inl (hbdug.mp hin)
            · intro hin
              rcases hin with hin | hin
              · exact hbdug.mpr hin
              · exact absurd hin hune
      | true =>
        have hxuid : u.id = uid := by simpa using hxu
        have hbdcg := hbd cu hcu_mem g hgm
        cases hxg : (g.id == gid) with
        | false =>
          have hgne : g.id ≠ gid := by simpa using hxg
          simp only [if_true, applyUpdate, Option.getD, Bool.false_and,
            Bool.false_eq_true, if_false, List.mem_append,
            List.mem_singleton]
          constructor
          · intro hin
            rcases hin with hin | hin
            · rw [hxuid, ← hcu_id]
              exact hbdcg.mp hin
            · exact absurd hin hgne
          · intro hin
            left
            exact hbdcg.mpr (by rw [hcu_id, ← hxuid]; exact hin)
        | true =>
          have hgid : g.id = gid := by simpa using hxg
          cases hc : g.members.contains uid with
          | true =>
            have hcm : uid ∈ g.members := contains_iff_mem.mp hc
            simp only [if_true, applyUpdate, Option.getD, hc, Bool.not_true,
              Bool.and_false, Bool.false_eq_true, if_false,
              List.mem_append, List.mem_singleton]
            constructor
            · intro _
              rw [hxuid]
              exact hcm
            · intro _
              exact Or.inr hgid
          | false =>
            simp only [if_true, applyUpdate, Option.getD, hc,
              Bool.not_false, Bool.and_true, List.mem_append,
              List.mem_singleton]
            constructor
            · intro _
              exact Or.inr hxuid
            · intro _
              exact Or.inr hgid

/-- Removing a user from a group preserves the state invariant. -/
theorem stateInv_removeMember (s : AppState) (uid gid : String)
    (h : StateInv s) : StateInv (handleRemoveUserFromGroup s uid gid) := by
  obtain ⟨hup, hgp, hgr, hmr, hbd⟩ := h
  have hfg_id : ∀ g : Group,
      (if g.id == gid then
        { g with members := g.members.filter fun m => m != uid } else g).id
      = g.id := by
    intro g
    cases hx : (g.id == gid) <;> simp
  cases hfind : s.users.find? (fun u => u.id == uid) with
  | none =>
    have hnou : ∀ u ∈ s.users, u.id ≠ uid := by
      intro u hum heq
      have := List.find?_eq_none.mp hfind u hum
      simp [heq] at this
    have hred : handleRemoveUserFromGroup s uid gid =
        { s with groups := s.groups.map fun g =>
            if g.id == gid then
              { g with members := g.members.filter fun m => m != uid }
            else g } := by
      simp [handleRemoveUserFromGroup, hfind]
    rw [hred]
    refine ⟨hup, pairwiseGroupIds_map _ hfg_id hgp, ?_, ?_, ?_⟩
    · intro u hum gid' hgid'
      simp only [groupIds]
      rw [groupIds_map_of_id_preserving _ hfg_id]
      simpa [groupIds] using hgr u hum gid' hgid'
    · intro g' hg' uid' huid'
      simp only [List.mem_map] at hg'
      obtain ⟨g, hgm, rfl⟩ := hg'
      simp only [userIds]
      cases hx : (g.id == gid) with
      | false =>
        rw [hx] at huid'
        simp only [Bool.false_eq_true, if_false] at huid'
        simpa [userIds] using hmr g hgm uid' huid'
      | true =>
        rw [hx] at huid'
        simp only [if_true, List.mem_filter] at huid'
        simpa [userIds] using hmr g hgm uid' huid'.1
    · intro u hum g' hg'
      simp only [List.mem_map] at hg'
      obtain ⟨g, hgm, rfl⟩ := hg'
      cases hx : (g.id == gid) with
      | false =>
        simp only [hx, Bool.false_eq_true, if_false]
        exact hbd u hum g hgm
      | true =>
        have hune : u.id ≠ uid := hnou u hum
        simp only [hx, if_true, List.mem_filter, bne_iff_ne]
        constructor
        · intro hin
          exact ⟨(hbd u hum g hgm).mp hin, hune⟩
        · intro hin
          exact (hbd u hum g hgm).mpr hin.1
  | some cu =>
    have hcu_mem : cu ∈ s.users := List.mem_of_find?_eq_some hfind
    have hcu_id : cu.id = uid := by simpa using List.find?_some hfind
    have hred : handleRemoveUserFromGroup s uid gid =
        { s with
          users := updateUser s.users uid
            { groups := some (cu.groups.filter fun gId => gId != gid) },
          groups := s.groups.map fun g =>
            if g.id == gid then
              { g with members := g.members.filter fun m => m != uid }
            else g } := by
      simp [handleRemoveUserFromGroup, hfind]
    rw [hred]
    have hfu_id : ∀ u : User,
        (if u.id == uid then
          applyUpdate u
            { groups := some (cu.groups.filter fun gId => gId != gid) }
          else u).id = u.id := by
      intro u
      cases hx : (u.id == uid) <;> simp [applyUpdate]
    refine ⟨?_, ?_, ?_, ?_, ?_⟩
    · exact pairwiseUserIds_map _ hfu_id hup
    · exact pairwiseGroupIds_map _ hfg_id hgp
    · intro u' hu' gid' hgid'
      simp only [updateUser, List.mem_map] at hu'
      obtain ⟨u, hum, rfl⟩ := hu'
      simp only [groupIds]
      rw [groupIds_map_of_id_preserving _ hfg_id]
      cases hx : (u.id == uid) with
      | false =>
        rw [hx] at hgid'
        simp only [Bool.false_eq_true, if_false] at hgid'
        simpa [groupIds] using hgr u hum gid' hgid'
      | true =>
        rw [hx] at hgid'
        simp only [if_true, applyUpdate, Option.getD,
          List.mem_filter] at hgid'
        simpa [groupIds] using hgr cu hcu_mem gid' hgid'.1
    · intro g' hg' uid' huid'
      simp only [List.mem_map] at hg'
      obtain ⟨g, hgm, rfl⟩ := hg'
      simp only [userIds, updateUser]
      rw [userIds_map_of_id_preserving _ hfu_id]
      cases hx : (g.id == gid) with
      | false =>
        rw [hx] at huid'
        simp only [Bool.false_eq_true, if_false] at huid'
        simpa [userIds] using hmr g hgm uid' huid'
      | true =>
        rw [hx] at huid'
        simp only [if_true, List.mem_filter] at huid'
        simpa [userIds] using hmr g hgm uid' huid'.1
    · intro u' hu' g' hg'
      simp only [updateUser, List.mem_map] at hu' hg'
      obtain ⟨u, hum, rfl⟩ := hu'
      obtain ⟨g, hgm, rfl⟩ := hg'
      have hbdug := hbd u hum g hgm
      cases hxu : (u.id == uid) with
      | false =>
        have hune : u.id ≠ uid := by simpa using hxu
        cases hxg : (g.id == gid) with
        | false =>
          simp only [Bool.false_eq_true, if_false]
          exact hbdug
        | true =>
          simp only [Bool.false_eq_true, if_false, hxg, if_true,
            List.mem_filter, bne_iff_ne]
          constructor
          · intro hin
            exact ⟨hbdug.mp hin, hune⟩
          · intro hin
            exact hbdug.mpr hin.1
      | true =>
        have hxuid : u.id = uid := by simpa using hxu
        have hbdcg := hbd cu hcu_mem g hgm
        cases hxg : (g.id == gid) with
        | false =>
          have hgne : g.id ≠ gid := by simpa using hxg
          simp only [if_true, applyUpdate, Option.getD, hxg,
            Bool.false_eq_true, if_false, List.mem_filter, bne_iff_ne]
          constructor
          · intro hin
            rw [hxuid, ← hcu_id]
            exact hbdcg.mp hin.1
          · intro hin
            refine ⟨hbdcg.mpr ?_, hgne⟩
            rw [hcu_id, ← hxuid]
            exact hin
        | true =>
          have hgid : g.id = gid := by simpa using hxg
          simp only [if_true, applyUpdate, Option.getD, hxg,
            List.mem_filter, bne_iff_ne]
          constructor
          · intro hin
            exact absurd hgid hin.2
          · intro hin
            exact absurd hxuid hin.2

/-- User deletion preserves the state invariant. -/
theorem stateInv_deleteUser (s : AppState) (uid : String) (h : StateInv s) :
    StateInv (handleDeleteUser s uid) := by
  obtain ⟨hup, hgp, hgr, hmr, hbd⟩ := h
  have hfg_id : ∀ g : Group,
      ({ g with members := g.members.filter fun m => m != uid } : Group).id
      = g.id := fun g => rfl
  refine ⟨?_, ?_, ?_, ?_, ?_⟩
  · exact hup.filter _
  · exact pairwiseGroupIds_map _ hfg_id hgp
  · intro u hu gid hgid
    simp only [handleDeleteUser, deleteUserList, List.mem_filter] at hu
    simp only [handleDeleteUser, groupIds]
    rw [groupIds_map_of_id_preserving _ hfg_id]
    simpa [groupIds] using hgr u hu.1 gid hgid
  · intro g' hg' uid' huid'
    simp only [handleDeleteUser, List.mem_map] at hg'
    obtain ⟨g, hgm, rfl⟩ := hg'
    simp only [List.mem_filter, bne_iff_ne] at huid'
    have := hmr g hgm uid' huid'.1
    simp only [userIds, List.mem_map] at this
    obtain ⟨v, hvm, hvid⟩ := this
    simp only [handleDeleteUser, userIds, deleteUserList, List.mem_map]
    exact ⟨v, List.mem_filter.mpr ⟨hvm, by simpa [hvid] using huid'.2⟩, hvid⟩
  · intro u hu g' hg'
    simp only [handleDeleteUser, deleteUserList, List.mem_filter,
      List.mem_map, bne_iff_ne] at hu hg'
    obtain ⟨g, hgm, rfl⟩ := hg'
    have hune : u.id ≠ uid := by simpa using hu.2
    simp only [List.mem_filter, bne_iff_ne]
    constructor
    · intro hin
      exact ⟨(hbd u hu.1 g hgm).mp hin, hune⟩
    · intro hin
      exact (hbd u hu.1 g hgm).mpr hin.1

/-- Password rotation preserves the state invariant. -/
theorem stateInv_updatePassword (s : AppState) (uid pw : String) (now : Nat)
    (h : StateInv s) : StateInv (updateUserPassword s uid pw now) := by
  obtain ⟨hup, hgp, hgr, hmr, hbd⟩ := h
  have hfu_id : ∀ u : User,
      (if u.id == uid then
        { u with password := some pw, passwordGeneratedAt := some now }
      else u).id = u.id := by
    intro u
    cases hx : (u.id == uid) <;> simp
  have hfu_groups : ∀ u : User,
      (if u.id == uid then
        { u with password := some pw, passwordGeneratedAt := some now }
      else u).groups = u.groups := by
    intro u
    cases hx : (u.id == uid) <;> simp
  refine ⟨?_, hgp, ?_, ?_, ?_⟩
  · exact pairwiseUserIds_map _ hfu_id hup
  · intro u' hu' gid hgid
    simp only [updateUserPassword, List.mem_map] at hu'
    obtain ⟨u, hum, rfl⟩ := hu'
    rw [hfu_groups u] at hgid
    simpa [groupIds] using hgr u hum gid hgid
  · intro g hg uid' huid'
    simp only [updateUserPassword, userIds]
    rw [userIds_map_of_id_preserving _ hfu_id]
    simpa [userIds] using hmr g hg uid' huid'
  · intro u' hu' g hg
    simp only [updateUserPassword, List.mem_map] at hu'
    obtain ⟨u, hum, rfl⟩ := hu'
    rw [hfu_groups u, hfu_id u]
    exact hbd u hum g hg

/-- Every reachable admin state satisfies the full invariant. -/
theorem adminReachable_stateInv {s : AppState} (h : AdminReachable s) :
    StateInv s := by
  induction h with
  | init su =>
    refine ⟨?_, ?_, ?_, ?_, ?_⟩ <;>
      simp [initialUsers, bidirConsistent]
  | stepCreateUser d newId pw now hfresh _ ih =>
    exact stateInv_createUser _ d newId pw now hfresh ih
  | stepCreateGroup name desc newId hfresh _ ih =>
    exact stateInv_createGroup _ name desc newId hfresh ih
  | stepAddMember uid gid hu hg _ ih =>
    exact stateInv_addMember _ uid gid hu hg ih
  | stepRemoveMember uid gid _ ih =>
    exact stateInv_removeMember _ uid gid ih
  | stepDeleteUser uid _ ih =>
    exact stateInv_deleteUser _ uid ih
  | stepUpdatePassword uid pw now _ ih =>
    exact stateInv_updatePassword _ uid pw now ih

/-- C5: over every reachable admin state, adding listed user U to listed
group G records the membership on BOTH sides (G's `members` gains U.id and
U's `groups` gains G.id), removing reverses both sides, and no reachable
state records a membership on exactly one side (bidirectional
consistency). -/
theorem C5_bidirectional_group_membership (s : AppState) (uid gid : String)
    (hs : AdminReachable s) (hu : uid ∈ userIds s) (hg : gid ∈ groupIds s) :
    (∀ g ∈ (handleAddUserToGroup s uid gid).groups, g.id = gid →
        uid ∈ g.members) ∧
    (∀ u ∈ (handleAddUserToGroup s uid gid).users, u.id = uid →
        gid ∈ u.groups) ∧
    (∀ g ∈ (handleRemoveUserFromGroup s uid gid).groups, g.id = gid →
        uid ∉ g.members) ∧
    (∀ u ∈ (handleRemoveUserFromGroup s uid gid).users, u.id = uid →
        gid ∉ u.groups) ∧
    bidirConsistent s := by
  obtain ⟨hup, hgp, hgr, hmr, hbd⟩ := adminReachable_stateInv hs
  obtain ⟨cu, hcu⟩ : ∃ cu, s.users.find? (fun u => u.id == uid) = some cu := by
    apply Option.isSome_iff_exists.mp
    rw [List.find?_isSome]
    obtain ⟨u, hu', hid⟩ := List.mem_map.mp hu
    exact ⟨u, hu', by simp [hid]⟩
  have hcu_mem : cu ∈ s.users := List.mem_of_find?_eq_some hcu
  have hcu_id : cu.id = uid := by simpa using List.find?_some hcu
  have huniq : ∀ u ∈ s.users, u.id = uid → u = cu := by
    intro u hum hid
    by_contra hne
    exact (hup.forall (fun a b hab => Ne.symm hab) hum hcu_mem hne)
      (hid.trans hcu_id.symm)
  refine ⟨?_, ?_, ?_, ?_, hbd⟩
  · -- after add: every group with the id lists the user
    intro g' hg' hgid'
    simp only [handleAddUserToGroup, List.mem_map] at hg'
    obtain ⟨g, hgm, rfl⟩ := hg'
    rcases Bool.eq_false_or_eq_true (g.id == gid) with hxg | hxg
    · rcases Bool.eq_false_or_eq_true (g.members.contains uid) with hc | hc
      · simp only [hxg, hc, Bool.not_true, Bool.and_false,
          Bool.false_eq_true, if_false]
        exact contains_iff_mem.mp hc
      · have hnm : uid ∉ g.members := by
          intro hin
          rw [← contains_iff_mem, hc] at hin
          exact Bool.false_ne_true hin
        simp [hxg, hc, hnm]
    · simp only [hxg, Bool.false_and, Bool.false_eq_true, if_false] at hgid'
      exact absurd hgid' (by simpa using hxg)
  · -- after add: every user with the id lists the group
    intro u' hu' huid'
    simp only [handleAddUserToGroup, hcu] at hu'
    rcases Bool.eq_false_or_eq_true (cu.groups.contains gid) with hA | hA
    · simp only [hA, if_true] at hu'
      have : u' = cu := huniq u' hu' huid'
      subst this
      exact contains_iff_mem.mp hA
    · simp only [hA, Bool.false_eq_true, if_false, updateUser,
        List.mem_map] at hu'
      obtain ⟨u, hum, rfl⟩ := hu'
      rcases Bool.eq_false_or_eq_true (u.id == uid) with hx | hx
      · simp [hx, applyUpdate]
      · simp only [hx, Bool.false_eq_true, if_false] at huid'
        exact absurd huid' (by simpa using hx)
  · -- after remove: no group with the id lists the user
    intro g' hg' hgid'
    simp only [handleRemoveUserFromGroup, List.mem_map] at hg'
    obtain ⟨g, hgm, rfl⟩ := hg'
    rcases Bool.eq_false_or_eq_true (g.id == gid) with hxg | hxg
    · simp [hxg, List.mem_filter]
    · simp only [hxg, Bool.false_eq_true, if_false] at hgid'
      exact absurd hgid' (by simpa using hxg)
  · -- after remove: no user with the id lists the group
    intro u' hu' huid'
    simp only [handleRemoveUserFromGroup, hcu, updateUser,
      List.mem_map] at hu'
    obtain ⟨u, hum, rfl⟩ := hu'
    rcases Bool.eq_false_or_eq_true (u.id == uid) with hx | hx
    · simp [hx, applyUpdate, List.mem_filter]
    · simp only [hx, Bool.false_eq_true, if_false] at huid'
      exact absurd huid' (by simpa using hx)

/-- Reachable admin state of the C5 witness: the seed admin plus one group
`g1`, created fresh. -/
def c5State : AppState :=
  handleCreateGroup
    { users := initialUsers, groups := [], sessionUser := none } "G" "" "g1"

/-- Reachability of the C5 witness state. -/
theorem c5State_reachable : AdminReachable c5State :=
  .stepCreateGroup "G" "" "g1" (by simp [groupIds]) (.init none)

/-- Witness for C5: adding the seed admin (id "1") to group `g1` records the
membership on both sides, removing it clears both sides, and the witness
state is bidirectionally consistent. -/
theorem C5_bidirectional_group_membership_witness :
    "1" ∈ ((handleAddUserToGroup c5State "1" "g1").groups.getD 0
      { id := "", name := "", description := "", members := [],
        createdBy := "" }).members ∧
    "g1" ∈ ((handleAddUserToGroup c5State "1" "g1").users.getD 0
      { id := "", email := "", name := "", phone := "", employeeId := "",
        location := "", isAdmin := false, groups := [], password := none,
        passwordGeneratedAt := none, createdBy := none,
        createdAt := none }).groups ∧
    "1" ∉ ((handleRemoveUserFromGroup c5State "1" "g1").groups.getD 0
      { id := "", name := "", description := "", members := [],
        createdBy := "" }).members ∧
    bidirConsistent c5State :=
  ⟨(C5_bidirectional_group_membership c5State "1" "g1" c5State_reachable
      (by decide) (by decide)).1 _ (by decide) (by decide),
   (C5_bidirectional_group_membership c5State "1" "g1" c5State_reachable
      (by decide) (by decide)).2.1 _ (by decide) (by decide),
   (C5_bidirectional_group_membership c5State "1" "g1" c5State_reachable
      (by decide) (by decide)).2.2.1 _ (by decide) (by decide),
   (C5_bidirectional_group_membership c5State "1" "g1" c5State_reachable
      (by decide) (by decide)).2.2.2.2⟩

end LearningApp
